import Mathlib

/-!
Verification of the eyek texture-baking program (src/main.rs).

The Rust source is shallowly embedded: `f32` arithmetic is modelled over `ℚ`
(exact rationals), machine-integer casts (`as u32`, `as u8`) are modelled
explicitly with `% 2^32` / `% 256`, Rust's `%` on `i32` is `Int.tmod`
(truncated remainder), and images are total pixel functions together with
their dimensions.  Definition names follow the Rust function names.
-/

namespace Eyek

/-- A point, mirroring `nalgebra`'s `Point3<f32>` over exact rationals. -/
structure Pt3 where
  x : ℚ
  y : ℚ
  z : ℚ
deriving DecidableEq

/-- `struct Tris2D { a, b, c: Point3<f32> }` — a 2D (UV-space) triangle whose
vertices carry an unused z coordinate, exactly as in the source. -/
structure Tris2D where
  a : Pt3
  b : Pt3
  c : Pt3
deriving DecidableEq

/-- The barycentric denominator `v0.x * v1.y - v1.x * v0.y` of
`Tris2D::cartesian_to_barycentric` (the code computes `den` as its
reciprocal). -/
def Tris2D.bary_den (t : Tris2D) : ℚ :=
  (t.b.x - t.a.x) * (t.c.y - t.a.y) - (t.c.x - t.a.x) * (t.b.y - t.a.y)

/-- `Tris2D::cartesian_to_barycentric`: `v0 = b - a`, `v1 = c - a`,
`v2 = pt - a`, `den = 1.0 / (v0.x*v1.y - v1.x*v0.y)`,
`v = (v2.x*v1.y - v1.x*v2.y) * den`, `w = (v0.x*v2.y - v2.x*v0.y) * den`,
`u = 1 - v - w`, returned as `(u, v, w)`. -/
def Tris2D.cartesian_to_barycentric (t : Tris2D) (pt : Pt3) : Pt3 :=
  let v0x := t.b.x - t.a.x
  let v0y := t.b.y - t.a.y
  let v1x := t.c.x - t.a.x
  let v1y := t.c.y - t.a.y
  let v2x := pt.x - t.a.x
  let v2y := pt.y - t.a.y
  let den := 1 / (v0x * v1y - v1x * v0y)
  let v := (v2x * v1y - v1x * v2y) * den
  let w := (v0x * v2y - v2x * v0y) * den
  let u := 1 - v - w
  ⟨u, v, w⟩

/-- `Tris2D::barycentric_to_cartesian`: the weighted combination
`pt.x * a + pt.y * b + pt.z * c`, componentwise. -/
def Tris2D.barycentric_to_cartesian (t : Tris2D) (pt : Pt3) : Pt3 :=
  ⟨pt.x * t.a.x + pt.y * t.b.x + pt.z * t.c.x,
   pt.x * t.a.y + pt.y * t.b.y + pt.z * t.c.y,
   pt.x * t.a.z + pt.y * t.b.z + pt.z * t.c.z⟩

/-- `Tris2D::has_point`: converts to barycentric coordinates and checks, in
source order, `bary.x >= 0 && bary.x <= 1 && bary.y >= 0 && bary.z <= 1 &&
bary.z >= 0 && bary.z <= 1` (note: no `bary.y <= 1` check, and the
`bary.z <= 1` check appears twice, exactly as in the source). -/
def Tris2D.has_point (t : Tris2D) (pt : Pt3) : Bool :=
  let bary := t.cartesian_to_barycentric pt
  decide (0 ≤ bary.x) && decide (bary.x ≤ 1)
    && decide (0 ≤ bary.y)
    && decide (bary.z ≤ 1) && decide (0 ≤ bary.z) && decide (bary.z ≤ 1)

/-- Concrete right triangle `(0,0), (1,0), (0,1)` used as witness input. -/
def triW : Tris2D :=
  ⟨⟨0, 0, 0⟩, ⟨1, 0, 0⟩, ⟨0, 1, 0⟩⟩

/-- Concrete interior point `(1/4, 1/4)` used as witness input. -/
def ptW : Pt3 :=
  ⟨1/4, 1/4, 0⟩


end Eyek

namespace Eyek

/-- `closest_faces(faces, ray, near, far)` from the source, with the external
`ray.intersects_triangle(..).distance` call abstracted as the function
`dist` (the BVH/ray library is an external collaborator).  If at most one
candidate, return the list unchanged; otherwise pair each face with its
distance, sort by distance ascending (Rust's stable `sort_by`, modelled by
the stable `List.mergeSort`), form
`epsilon = near + closest[0].0 / (far - near).max(0.0001)` and keep the
faces whose distance is within `epsilon` of the closest. -/
def closest_faces {α : Type} (dist : α → ℚ) (near far : ℚ) (faces : List α) :
    List α :=
  if faces.length ≤ 1 then faces
  else
    match (faces.map fun f => (dist f, f)).mergeSort
        (fun a b => decide (a.1 ≤ b.1)) with
    | [] => []
    | c0 :: rest =>
      let epsilon := near + c0.1 / (max (far - near) (1 / 10000))
      ((c0 :: rest).filter fun f => decide (f.1 - c0.1 ≤ epsilon)).map
        fun f => f.2

/-- The distance assignment of the spec's worked example: candidates `0, 1, 2`
at ray distances `1.0`, `1.05`, `5.0`. -/
def distW : Nat → ℚ :=
  fun n => if n = 0 then 1 else if n = 1 then 21 / 20 else 5

/-- An RGBA color with `Nat` channels (`u8`/`u32` in the source; narrowing
casts are modelled explicitly with `% 256`). -/
structure Rgba where
  r : Nat
  g : Nat
  b : Nat
  a : Nat
deriving DecidableEq

/-- Transparent black, the initial pixel value of `RgbaImage::new`. -/
def Rgba.clear : Rgba :=
  ⟨0, 0, 0, 0⟩

/-- `image::RgbaImage`: dimensions together with a total pixel function. -/
structure RgbaImage where
  width : Nat
  height : Nat
  pix : Nat → Nat → Rgba

/-- `RgbaImage::new(w, h)`: every pixel transparent black. -/
def RgbaImage.new (w h : Nat) : RgbaImage :=
  ⟨w, h, fun _ _ => Rgba.clear⟩

/-- `texture.put_pixel(x, y, c)`: pointwise update. -/
def RgbaImage.put_pixel (img : RgbaImage) (x y : Nat) (c : Rgba) : RgbaImage :=
  ⟨img.width, img.height, fun i j => if i = x ∧ j = y then c else img.pix i j⟩

/-- `texture.get_pixel(x, y)`. -/
def RgbaImage.get_pixel (img : RgbaImage) (x y : Nat) : Rgba :=
  img.pix x y

/-- The eight neighbor offsets `ways` of `blend_pixel_with_neigbhours`, in
source order. -/
def ways : List (Int × Int) :=
  [(0, 1), (1, 1), (1, 0), (1, -1), (0, -1), (-1, 1), (-1, 0), (-1, -1)]

/-- Rust's `as u32` cast of an `i32` value: two's-complement wrap into
`[0, 2^32)`. -/
def i32_as_u32 (n : Int) : Nat :=
  (n % 4294967296).toNat

/-- One neighbor coordinate as computed by `blend_pixel_with_neigbhours`:
`((x as i32 + way % bound) as u32).min(bound as u32 - 1)`.  Rust precedence
puts the `%` (truncated remainder on `i32`, i.e. `Int.tmod`) on the offset
`way` alone, not on the sum. -/
def neighbor_coord (x : Nat) (way : Int) (bound : Nat) : Nat :=
  min (i32_as_u32 ((x : Int) + way.tmod (bound : Int))) (bound - 1)

/-- `blend_pixel_with_neigbhours(texture, x, y)`: accumulate count and RGB
sums over the 8 neighbor reads whose alpha is nonzero, divide the sums by the
count when it is nonzero, and return the result with alpha 255 (the alpha is
255 unconditionally, exactly as in the source). -/
def blend_pixel_with_neigbhours (texture : RgbaImage) (x y : Nat) : Rgba :=
  let step := fun (acc : Nat × Nat × Nat × Nat) (way : Int × Int) =>
    let col := texture.get_pixel (neighbor_coord x way.1 texture.width)
      (neighbor_coord y way.2 texture.height)
    if col.a ≠ 0 then
      (acc.1 + 1, acc.2.1 + col.r, acc.2.2.1 + col.g, acc.2.2.2 + col.b)
    else acc
  let res := ways.foldl step (0, 0, 0, 0)
  let cnt := res.1
  let r := if cnt ≠ 0 then res.2.1 / cnt else res.2.1
  let g := if cnt ≠ 0 then res.2.2.1 / cnt else res.2.2.1
  let b := if cnt ≠ 0 then res.2.2.2 / cnt else res.2.2.2
  ⟨r % 256, g % 256, b % 256, 255⟩

/-- Modelled from the spec (§4.5): the same neighbor average but with each
offset coordinate clamped to the texture bounds `[0, bound-1]` (no
wraparound), for comparison against the source behavior. -/
def clamp_coord (x : Nat) (way : Int) (bound : Nat) : Nat :=
  min ((x : Int) + way).toNat (bound - 1)

/-- Modelled from the spec (§4.5): `blend_pixel_with_neigbhours` with truly
clamped neighbor coordinates. -/
def blend_pixel_clamped (texture : RgbaImage) (x y : Nat) : Rgba :=
  let step := fun (acc : Nat × Nat × Nat × Nat) (way : Int × Int) =>
    let col := texture.get_pixel (clamp_coord x way.1 texture.width)
      (clamp_coord y way.2 texture.height)
    if col.a ≠ 0 then
      (acc.1 + 1, acc.2.1 + col.r, acc.2.2.1 + col.g, acc.2.2.2 + col.b)
    else acc
  let res := ways.foldl step (0, 0, 0, 0)
  let cnt := res.1
  let r := if cnt ≠ 0 then res.2.1 / cnt else res.2.1
  let g := if cnt ≠ 0 then res.2.2.1 / cnt else res.2.2.1
  let b := if cnt ≠ 0 then res.2.2.2 / cnt else res.2.2.2
  ⟨r % 256, g % 256, b % 256, 255⟩

/-- `fill_empty_pixels(texture)`: one pass over rows from the last to the
first, columns left to right; every still-transparent pixel is blended from
the texture being mutated (the source passes `&texture` on the very buffer
it `put_pixel`s into) and written back when the blend's alpha is nonzero. -/
def fill_empty_pixels (texture : RgbaImage) : RgbaImage :=
  ((List.range texture.height).reverse).foldl (fun tex v =>
    (List.range texture.width).foldl (fun tex' u =>
      let current := tex'.get_pixel u v
      if current.a = 0 then
        let blended := blend_pixel_with_neigbhours tex' u v
        if blended.a ≠ 0 then tex'.put_pixel u v blended else tex'
      else tex') tex) texture

/-- Comparison variant of the hole filler: identical scan and write logic,
but every read (the transparency test and the neighbor blend) comes from a
snapshot of the texture taken before the pass. -/
def fill_empty_pixels_snapshot (texture : RgbaImage) : RgbaImage :=
  ((List.range texture.height).reverse).foldl (fun tex v =>
    (List.range texture.width).foldl (fun tex' u =>
      let current := texture.get_pixel u v
      if current.a = 0 then
        let blended := blend_pixel_with_neigbhours texture u v
        if blended.a ≠ 0 then tex'.put_pixel u v blended else tex'
      else tex') tex) texture

/-- 2×2 fixture for C3: opaque gray 200 at `(1,1)`, opaque gray 10 at
`(1,0)`, the left column transparent. -/
def tex3 : RgbaImage :=
  ⟨2, 2, fun u v =>
    if u = 1 ∧ v = 1 then ⟨200, 200, 200, 255⟩
    else if u = 1 ∧ v = 0 then ⟨10, 10, 10, 255⟩
    else Rgba.clear⟩

/-- 2×3 fixture for C9: opaque gray 120 at `(1,2)`, opaque gray 30 at
`(1,1)`, all other texels transparent. -/
def tex9 : RgbaImage :=
  ⟨2, 3, fun u v =>
    if u = 1 ∧ v = 2 then ⟨120, 120, 120, 255⟩
    else if u = 1 ∧ v = 1 then ⟨30, 30, 30, 255⟩
    else Rgba.clear⟩

/-- `enum Blending { Average, Median, Mode }`. -/
inductive Blending where
  | Average
  | Median
  | Mode

/-- `average(colors)` from the source: per-channel sums (one pass in the
source, three folds here), then truncating division by the number of colors,
each channel cast `as u8` (`% 256`). -/
def average (colors : List (Nat × Nat × Nat)) : Nat × Nat × Nat :=
  let sum_r := colors.foldl (fun s c => s + c.1) 0
  let sum_g := colors.foldl (fun s c => s + c.2.1) 0
  let sum_b := colors.foldl (fun s c => s + c.2.2) 0
  (sum_r / colors.length % 256, sum_g / colors.length % 256,
   sum_b / colors.length % 256)

/-- The per-pixel color collection of `combine_layers`: the RGB triples of
the layers whose pixel at `(x, y)` has nonzero alpha, kept in layer order. -/
def collect_colors (textures : List RgbaImage) (x y : Nat) :
    List (Nat × Nat × Nat) :=
  textures.filterMap fun part =>
    let col := part.get_pixel x y
    if col.a ≠ 0 then some (col.r, col.g, col.b) else none

/-- `combine_layers(textures, blending)`.  `textures[0].dimensions()` panics
on an empty vector, modelled by `none`.  The `Median` and `Mode` pixel
combiners (`median` sorts by an `f32::sqrt` magnitude key, `mode` iterates a
`HashMap` in unordered fashion) are abstracted as the parameters `medianFn`
and `modeFn`; the `Average` branch is the source's `average`. -/
def combine_layers (medianFn modeFn : List (Nat × Nat × Nat) → Nat × Nat × Nat)
    (textures : List RgbaImage) (blending : Blending) : Option RgbaImage :=
  match textures with
  | [] => none
  | t0 :: _ =>
    some ((List.range t0.height).foldl (fun tex y =>
      (List.range t0.width).foldl (fun tex' x =>
        if 0 < (collect_colors textures x y).length then
          tex'.put_pixel x y
            (let m := match blending with
              | Blending.Average => average (collect_colors textures x y)
              | Blending.Median => medianFn (collect_colors textures x y)
              | Blending.Mode => modeFn (collect_colors textures x y)
            ⟨m.1, m.2.1, m.2.2, 255⟩)
        else tex') tex) (RgbaImage.new t0.width t0.height))

/-- 1×1 layer fixture: opaque red `(255,0,0,255)`. -/
def layerR : RgbaImage :=
  ⟨1, 1, fun _ _ => ⟨255, 0, 0, 255⟩⟩

/-- 1×1 layer fixture: fully transparent. -/
def layerT : RgbaImage :=
  ⟨1, 1, fun _ _ => ⟨0, 0, 0, 0⟩⟩

/-- 1×1 layer fixture: opaque near-black `(1,1,1,255)`. -/
def layerG : RgbaImage :=
  ⟨1, 1, fun _ _ => ⟨1, 1, 1, 255⟩⟩

/-- The per-texel write logic of `face_img_to_uv` (the body of the nested
`u`/`v` loops), with the geometric predicates abstracted as booleans:
`uv_hit` stands for `face.v_uv.has_point(p_uv)`, `cam_hit` for the
camera-space containment / NDC-range / image-bounds checks, and `is_front`
for the `collisions.contains(&face)` visibility verdict (the perspective and
ray/BVH machinery are external-library calls).  The UV-clip gate and the
destination arithmetic are the source's own:
`(u < uv_width && v < uv_height) || !clip_uv` guards the texel, the
destination column is `u` under clipping and `u % uv_width` otherwise
(likewise for `v`), and the write lands at row `uv_height - uv_v - 1`. -/
def face_img_to_uv_texel (clip_uv uv_hit cam_hit is_front : Bool)
    (texture : RgbaImage) (u v : Nat) (source_color : Rgba) : RgbaImage :=
  let uv_width := texture.width
  let uv_height := texture.height
  if uv_hit then
    if cam_hit then
      if (u < uv_width ∧ v < uv_height) ∨ clip_uv = false then
        if is_front then
          let uv_u := if clip_uv then u else u % uv_width
          let uv_v := if clip_uv then v else v % uv_height
          texture.put_pixel uv_u (uv_height - uv_v - 1) source_color
        else texture
      else texture
    else texture
  else texture

theorem closest_faces_short {α : Type} (dist : α → ℚ) (near far : ℚ)
    (faces : List α) (h : faces.length ≤ 1) :
    closest_faces dist near far faces = faces := by
  unfold closest_faces
  rw [if_pos h]

theorem closest_faces_sorted_and_perm {α : Type} (dist : α → ℚ)
    (near far m : ℚ) (faces : List α) (h2 : 2 ≤ faces.length)
    (hmem : m ∈ faces.map dist) (hmin : ∀ d ∈ faces.map dist, m ≤ d) :
    (closest_faces dist near far faces).Pairwise (fun f g => dist f ≤ dist g) ∧
    (closest_faces dist near far faces).Perm (faces.filter fun f =>
      decide (dist f - m ≤ near + m / (max (far - near) (1 / 10000)))) := by
  have hne : ¬ faces.length ≤ 1 := by omega
  have hperm := List.mergeSort_perm (faces.map fun f => (dist f, f))
      (fun a b => decide (a.1 ≤ b.1))
  have hsorted := @List.sorted_mergeSort (ℚ × α)
      (fun a b => decide (a.1 ≤ b.1))
      (fun a b c hab hbc => by
        simp only [decide_eq_true_eq] at *
        exact le_trans hab hbc)
      (fun a b => by
        simp only [Bool.or_eq_true, decide_eq_true_eq]
        exact le_total a.1 b.1)
      (faces.map fun f => (dist f, f))
  have hshape : ∀ p ∈ (faces.map fun f => (dist f, f)), p.1 = dist p.2 := by
    intro p hp
    obtain ⟨f, _, rfl⟩ := List.mem_map.mp hp
    rfl
  unfold closest_faces
  rw [if_neg hne]
  rcases hs : (faces.map fun f => (dist f, f)).mergeSort
      (fun a b => decide (a.1 ≤ b.1)) with _ | ⟨c0, rest⟩
  · exfalso
    have hlen := congrArg List.length hs
    rw [List.length_mergeSort, List.length_map, List.length_nil] at hlen
    omega
  · rw [hs] at hperm hsorted
    have hc0_pairs : c0 ∈ faces.map fun f => (dist f, f) :=
      hperm.mem_iff.mp (List.mem_cons_self _ _)
    obtain ⟨f0, hf0, hf0eq⟩ := List.mem_map.mp hc0_pairs
    have hc0fst : c0.1 = dist f0 := by rw [← hf0eq]
    have hmle : m ≤ c0.1 := by
      apply hmin
      rw [hc0fst]
      exact List.mem_map.mpr ⟨f0, hf0, rfl⟩
    have hlem : c0.1 ≤ m := by
      obtain ⟨g0, hg0, hg0eq⟩ := List.mem_map.mp hmem
      have hpair : (dist g0, g0) ∈ c0 :: rest := by
        rw [← hs]
        exact List.mem_mergeSort.mpr (List.mem_map.mpr ⟨g0, hg0, rfl⟩)
      rcases List.mem_cons.mp hpair with h | h
      · rw [← h, hg0eq]
      · have hle := (List.pairwise_cons.mp hsorted).1 _ h
        simp only [decide_eq_true_eq] at hle
        rw [hg0eq] at hle
        exact hle
    have hc0m : c0.1 = m := le_antisymm hlem hmle
    constructor
    · rw [List.pairwise_map]
      refine (hsorted.filter _).imp_of_mem ?_
      intro a b ha hb hab
      have ha' : a.1 = dist a.2 :=
        hshape a (hperm.mem_iff.mp (List.mem_of_mem_filter ha))
      have hb' : b.1 = dist b.2 :=
        hshape b (hperm.mem_iff.mp (List.mem_of_mem_filter hb))
      simp only [decide_eq_true_eq] at hab
      rw [ha', hb'] at hab
      exact hab
    · show (((c0 :: rest).filter fun f =>
          decide (f.1 - c0.1 ≤ near + c0.1 / (max (far - near) (1 / 10000)))).map
            fun f => f.2).Perm _
      rw [hc0m]
      refine ((hperm.filter _).map _).trans (List.Perm.of_eq ?_)
      rw [List.filter_map, List.map_map]
      exact List.map_id' _

/-- The spec's worked tie-break example: distances `[1.0, 1.05, 5.0]`,
`near = 0.1`, `far = 10`, epsilon `= 0.1 + 1.0/9.9`, tied set `{1.0, 1.05}`. -/
theorem closest_faces_example :
    closest_faces distW (1 / 10) 10 [0, 1, 2] = [0, 1] := by
  have hmax : max ((10 : ℚ) - 1 / 10) (1 / 10000) = 99 / 10 := by
    rw [max_eq_left] <;> norm_num
  have hmap : ([0, 1, 2].map fun f => (distW f, f)) =
      [((1 : ℚ), (0 : ℕ)), (21 / 20, 1), (5, 2)] := by
    norm_num [distW]
  unfold closest_faces
  rw [if_neg (by norm_num), hmap,
    List.mergeSort_of_sorted (by norm_num [List.pairwise_cons])]
  simp only [hmax]
  norm_num [List.filter_cons]

/-- C1: `closest_faces` on at most one candidate returns the list unchanged;
on two or more candidates (minimum ray distance `m`) it returns, sorted by
distance ascending, exactly those candidates whose distance exceeds `m` by at
most `epsilon = near + m / max (far - near) 1e-4`; and on the spec's worked
example (distances `[1.0, 1.05, 5.0]`, `near = 0.1`, `far = 10`) the tied set
is the candidates at distances `1.0` and `1.05`, excluding `5.0`. -/
theorem C1_closest_faces_tiebreak {α : Type} (dist : α → ℚ)
    (near far m : ℚ) (faces : List α) (h2 : 2 ≤ faces.length)
    (hmem : m ∈ faces.map dist) (hmin : ∀ d ∈ faces.map dist, m ≤ d) :
    (∀ (fs : List α), fs.length ≤ 1 → closest_faces dist near far fs = fs) ∧
    (closest_faces dist near far faces).Pairwise (fun f g => dist f ≤ dist g) ∧
    (closest_faces dist near far faces).Perm (faces.filter fun f =>
      decide (dist f - m ≤ near + m / (max (far - near) (1 / 10000)))) ∧
    closest_faces distW (1 / 10) 10 [0, 1, 2] = [0, 1] :=
  ⟨fun fs h => closest_faces_short dist near far fs h,
   (closest_faces_sorted_and_perm dist near far m faces h2 hmem hmin).1,
   (closest_faces_sorted_and_perm dist near far m faces h2 hmem hmin).2,
   closest_faces_example⟩

/-- Witness for C1 at the worked example itself: candidates `[0, 1, 2]` with
distances `[1, 21/20, 5]`, minimum `1`, `near = 1/10`, `far = 10`. -/
theorem C1_closest_faces_tiebreak_witness :
    (2 ≤ ([0, 1, 2] : List ℕ).length ∧
     (1 : ℚ) ∈ ([0, 1, 2] : List ℕ).map distW ∧
     (∀ d ∈ ([0, 1, 2] : List ℕ).map distW, (1 : ℚ) ≤ d)) ∧
    ((∀ (fs : List ℕ), fs.length ≤ 1 →
        closest_faces distW (1 / 10) 10 fs = fs) ∧
     (closest_faces distW (1 / 10) 10 [0, 1, 2]).Pairwise
        (fun f g => distW f ≤ distW g) ∧
     (closest_faces distW (1 / 10) 10 [0, 1, 2]).Perm
        (([0, 1, 2] : List ℕ).filter fun f =>
          decide (distW f - 1 ≤ 1 / 10 + 1 / (max (10 - 1 / 10) (1 / 10000)))) ∧
     closest_faces distW (1 / 10) 10 [0, 1, 2] = [0, 1]) :=
  ⟨⟨by norm_num, by norm_num [distW], by norm_num [distW]⟩,
   C1_closest_faces_tiebreak distW (1 / 10) 10 1 [0, 1, 2]
     (by norm_num) (by norm_num [distW]) (by norm_num [distW])⟩

/-- C6: for every 2D triangle with nonzero barycentric denominator and every
point `p`, `has_point` returns true iff all three barycentric coordinates of
`p` lie in `[0,1]` (boundary inclusive); the missing upper-bound check on the
second coordinate follows from the sum-to-1 invariant `u = 1 - v - w`. -/
theorem C6_has_point_iff_bary_in_unit (t : Tris2D) (p : Pt3)
    (hden : t.bary_den ≠ 0) :
    t.has_point p = true ↔
      (0 ≤ (t.cartesian_to_barycentric p).x ∧ (t.cartesian_to_barycentric p).x ≤ 1 ∧
       0 ≤ (t.cartesian_to_barycentric p).y ∧ (t.cartesian_to_barycentric p).y ≤ 1 ∧
       0 ≤ (t.cartesian_to_barycentric p).z ∧ (t.cartesian_to_barycentric p).z ≤ 1) := by
  clear hden
  simp only [Tris2D.has_point, Tris2D.cartesian_to_barycentric, Bool.and_eq_true,
    decide_eq_true_eq, and_assoc]
  constructor
  · rintro ⟨h1, h2, h3, h4, h5, h6⟩
    exact ⟨h1, h2, h3, by linarith, h5, h6⟩
  · rintro ⟨h1, h2, h3, _, h5, h6⟩
    exact ⟨h1, h2, h3, h6, h5, h6⟩

/-- Witness for C6 at the concrete triangle `(0,0),(1,0),(0,1)` and point
`(1/4,1/4)`, whose barycentric coordinates are `(1/2, 1/4, 1/4)`. -/
theorem C6_has_point_iff_bary_in_unit_witness :
    triW.bary_den ≠ 0 ∧
      (triW.has_point ptW = true ↔
        (0 ≤ (triW.cartesian_to_barycentric ptW).x ∧
         (triW.cartesian_to_barycentric ptW).x ≤ 1 ∧
         0 ≤ (triW.cartesian_to_barycentric ptW).y ∧
         (triW.cartesian_to_barycentric ptW).y ≤ 1 ∧
         0 ≤ (triW.cartesian_to_barycentric ptW).z ∧
         (triW.cartesian_to_barycentric ptW).z ≤ 1)) :=
  ⟨by norm_num [triW, Tris2D.bary_den], C6_has_point_iff_bary_in_unit triW ptW (by norm_num [triW, Tris2D.bary_den])⟩

/-- C7: for every 2D triangle with nonzero barycentric denominator and every
point `p`, the coordinates returned by `cartesian_to_barycentric` sum to 1,
and `barycentric_to_cartesian` applied to them reproduces `p.x` and `p.y`
exactly (over exact rational arithmetic). -/
theorem C7_bary_cartesian_roundtrip (t : Tris2D) (p : Pt3)
    (hden : t.bary_den ≠ 0) :
    (t.cartesian_to_barycentric p).x + (t.cartesian_to_barycentric p).y
        + (t.cartesian_to_barycentric p).z = 1 ∧
    (t.barycentric_to_cartesian (t.cartesian_to_barycentric p)).x = p.x ∧
    (t.barycentric_to_cartesian (t.cartesian_to_barycentric p)).y = p.y := by
  rw [Tris2D.bary_den] at hden
  simp only [Tris2D.cartesian_to_barycentric, Tris2D.barycentric_to_cartesian]
  refine ⟨by ring, ?_, ?_⟩ <;>
  · field_simp
    ring

/-- Witness for C7 at the concrete triangle `(0,0),(1,0),(0,1)` and point
`(1/4,1/4)`. -/
theorem C7_bary_cartesian_roundtrip_witness :
    triW.bary_den ≠ 0 ∧
      ((triW.cartesian_to_barycentric ptW).x + (triW.cartesian_to_barycentric ptW).y
          + (triW.cartesian_to_barycentric ptW).z = 1 ∧
       (triW.barycentric_to_cartesian (triW.cartesian_to_barycentric ptW)).x = ptW.x ∧
       (triW.barycentric_to_cartesian (triW.cartesian_to_barycentric ptW)).y = ptW.y) :=
  ⟨by norm_num [triW, Tris2D.bary_den], C7_bary_cartesian_roundtrip triW ptW (by norm_num [triW, Tris2D.bary_den])⟩



/-- For offsets of magnitude at most 1 and a bound of at least 2, Rust's
`way % bound` (truncated remainder) leaves the offset unchanged. -/
theorem tmod_small {w : Int} {b : Nat} (hb : 2 ≤ b) (hw : w.natAbs ≤ 1) :
    w.tmod (b : Int) = w := by
  have hb' : (1 : Int) < (b : Int) := by exact_mod_cast hb
  have hw3 : w = -1 ∨ w = 0 ∨ w = 1 := by omega
  rcases hw3 with rfl | rfl | rfl
  · have h0 : (1 : Int).tdiv (b : Int) = 0 :=
      Int.tdiv_eq_zero_of_lt (by norm_num) hb'
    have hneg : ((-1 : Int)).tdiv (b : Int) = -((1 : Int).tdiv (b : Int)) :=
      Int.neg_tdiv 1 (b : Int)
    rw [Int.tmod_def, hneg, h0]
    ring
  · exact Int.zero_tmod _
  · exact Int.tmod_eq_of_lt (by norm_num) hb'

/-- C3 counterexample: on the 2×2 texture `tex3` (opaque 200 at `(1,1)`,
opaque 10 at `(1,0)`, left column transparent), the neighbor average at the
first-column pixel `(0,0)` is `(136,136,136,255)` under the source's
coordinate computation but `(73,73,73,255)` under spec-style clamping: the
W/NW/SW offsets wrap through the `as u32` cast to the opposite (last) column
instead of clamping to column 0. -/
theorem C3_counterexample_first_column :
    blend_pixel_with_neigbhours tex3 0 0 = ⟨136, 136, 136, 255⟩ ∧
    blend_pixel_clamped tex3 0 0 = ⟨73, 73, 73, 255⟩ ∧
    blend_pixel_with_neigbhours tex3 0 0 ≠ blend_pixel_clamped tex3 0 0 := by
  refine ⟨by decide, by decide, by decide⟩

/-- C3 amended: in `blend_pixel_with_neigbhours` the neighbor coordinate is
the offset coordinate clamped **above** to the last row/column whenever the
offset coordinate is nonnegative (so there is no wraparound at the max
edge); but when the offset coordinate is negative (first row or first
column with a `-1` offset), the `i32 → u32` cast wraps it to `2^32 - 1` and
the upper clamp then sends the read to the opposite (last) row/column
instead of clamping to 0. -/
theorem C3_amended_neighbor_coord (x b : Nat) (w : Int)
    (hb : 2 ≤ b) (hb32 : b ≤ 2 ^ 31) (hw : w.natAbs ≤ 1) (hx : x < 2 ^ 31) :
    (0 ≤ (x : Int) + w →
      neighbor_coord x w b = min ((x : Int) + w).toNat (b - 1)) ∧
    ((x : Int) + w < 0 → neighbor_coord x w b = b - 1) := by
  have htm : w.tmod (b : Int) = w := tmod_small hb hw
  unfold neighbor_coord i32_as_u32
  rw [htm]
  have hwint : -1 ≤ w ∧ w ≤ 1 := by omega
  constructor
  · intro h
    have hlt : (x : Int) + w < 4294967296 := by omega
    rw [Int.emod_eq_of_lt h hlt]
  · intro h
    have hxw : (x : Int) + w = -1 := by omega
    rw [hxw]
    have he : (-1 : Int) % 4294967296 = 4294967295 := by decide
    rw [he]
    have ht : ((4294967295 : Int)).toNat = 4294967295 := by decide
    rw [ht]
    exact Nat.min_eq_right (by omega)

/-- Witness for C3's amended theorem at `x = 0`, offset `-1`, bound `2`:
the offset coordinate is negative and the coordinate read is `1`, the last
column. -/
theorem C3_amended_neighbor_coord_witness :
    (2 ≤ 2 ∧ 2 ≤ 2 ^ 31 ∧ (Int.natAbs (-1)) ≤ 1 ∧ 0 < 2 ^ 31) ∧
    ((0 ≤ (0 : Int) + (-1) →
        neighbor_coord 0 (-1) 2 = min ((0 : Int) + (-1)).toNat (2 - 1)) ∧
     ((0 : Int) + (-1) < 0 → neighbor_coord 0 (-1) 2 = 2 - 1)) :=
  ⟨⟨by norm_num, by norm_num, by norm_num, by norm_num⟩,
   C3_amended_neighbor_coord 0 2 (-1) (by norm_num) (by norm_num)
     (by norm_num) (by norm_num)⟩

/-- C2 (code bug): on a 1×1 all-transparent texture the lone texel has zero
non-transparent neighbors, yet `fill_empty_pixels` writes opaque black
`(0,0,0,255)` instead of leaving it transparent.
`blend_pixel_with_neigbhours` returns alpha 255 unconditionally, so the
`blended_color[3] != 0` guard in `fill_empty_pixels` never blocks a write. -/
theorem C2_isolated_texel_written_opaque :
    blend_pixel_with_neigbhours (RgbaImage.new 1 1) 0 0 = ⟨0, 0, 0, 255⟩ ∧
    (fill_empty_pixels (RgbaImage.new 1 1)).pix 0 0 = ⟨0, 0, 0, 255⟩ ∧
    (fill_empty_pixels (RgbaImage.new 1 1)).pix 0 0 ≠ Rgba.clear := by
  refine ⟨by decide, by decide, by decide⟩

/-- C9: `fill_empty_pixels` reads neighbors from the texture it is mutating.
On `tex9` the scan (rows last to first) first fills `(0,2)` to gray 90; the
texel `(0,1)` then averages that freshly written neighbor and gets
`(78,78,78,255)`, while a pass computing every blend from a pre-pass
snapshot would write `(75,75,75,255)` there. -/
theorem C9_fill_reads_mutated_texture :
    (fill_empty_pixels tex9).pix 0 1 = ⟨78, 78, 78, 255⟩ ∧
    (fill_empty_pixels_snapshot tex9).pix 0 1 = ⟨75, 75, 75, 255⟩ ∧
    (fill_empty_pixels tex9).pix 0 1 ≠ (fill_empty_pixels_snapshot tex9).pix 0 1 := by
  refine ⟨by decide, by decide, by decide⟩

@[simp] theorem put_pixel_pix (img : RgbaImage) (x y : Nat) (c : Rgba)
    (i j : Nat) :
    (img.put_pixel x y c).pix i j = if i = x ∧ j = y then c else img.pix i j :=
  rfl

@[simp] theorem new_pix (w h i j : Nat) :
    (RgbaImage.new w h).pix i j = Rgba.clear :=
  rfl

/-- A fold writing (conditionally) along one row `y` at distinct columns:
pixel lookup after the fold. -/
theorem foldl_write_pix (y : Nat) (P : Nat → Prop) [DecidablePred P]
    (val : Nat → Rgba) (xs : List Nat) (tex : RgbaImage) (i j : Nat) :
    ((xs.foldl (fun t x => if P x then t.put_pixel x y (val x) else t)
        tex).pix i j) =
      if j = y ∧ i ∈ xs ∧ P i then val i else tex.pix i j := by
  induction xs generalizing tex with
  | nil => simp
  | cons x rest ih =>
    simp only [List.foldl_cons]
    rw [ih]
    by_cases hjy : j = y <;> by_cases hir : i ∈ rest <;> by_cases hPi : P i <;>
      by_cases hPx : P x <;> by_cases hix : i = x <;>
      simp_all [List.mem_cons]

/-- A fold of row-writing folds over a list of rows: pixel lookup after the
full pass. -/
theorem foldl_rows_pix (w : Nat) (P : Nat → Nat → Prop)
    [∀ x y, Decidable (P x y)] (val : Nat → Nat → Rgba) (ys : List Nat)
    (tex : RgbaImage) (i j : Nat) :
    ((ys.foldl (fun t y => (List.range w).foldl
        (fun t' x => if P x y then t'.put_pixel x y (val x y) else t') t)
        tex).pix i j) =
      if j ∈ ys ∧ i ∈ List.range w ∧ P i j then val i j else tex.pix i j := by
  induction ys generalizing tex with
  | nil => simp
  | cons y rest ih =>
    simp only [List.foldl_cons]
    rw [ih, foldl_write_pix]
    by_cases hjy : j = y <;> by_cases hjr : j ∈ rest <;>
      by_cases hiw : i ∈ List.range w <;> by_cases hPi : P i j <;>
      simp_all [List.mem_cons]

/-- Pixel characterization of `combine_layers` on a nonempty layer list:
inside the bounds of the first layer, a pixel is the blended color (alpha
255) of the collected nonzero-alpha layer colors when there are any, and
stays transparent otherwise. -/
theorem combine_layers_pix
    (medianFn modeFn : List (Nat × Nat × Nat) → Nat × Nat × Nat)
    (t0 : RgbaImage) (rest : List RgbaImage) (blending : Blending)
    (img : RgbaImage) (i j : Nat) (hi : i < t0.width) (hj : j < t0.height)
    (him : combine_layers medianFn modeFn (t0 :: rest) blending = some img) :
    img.pix i j =
      if 0 < (collect_colors (t0 :: rest) i j).length then
        (let m := match blending with
          | Blending.Average => average (collect_colors (t0 :: rest) i j)
          | Blending.Median => medianFn (collect_colors (t0 :: rest) i j)
          | Blending.Mode => modeFn (collect_colors (t0 :: rest) i j)
        (⟨m.1, m.2.1, m.2.2, 255⟩ : Rgba))
      else Rgba.clear := by
  have hfold := Option.some.inj him
  rw [← hfold]
  have h := foldl_rows_pix t0.width
      (fun x y => 0 < (collect_colors (t0 :: rest) x y).length)
      (fun x y =>
        (let m := match blending with
          | Blending.Average => average (collect_colors (t0 :: rest) x y)
          | Blending.Median => medianFn (collect_colors (t0 :: rest) x y)
          | Blending.Mode => modeFn (collect_colors (t0 :: rest) x y)
        (⟨m.1, m.2.1, m.2.2, 255⟩ : Rgba)))
      (List.range t0.height) (RgbaImage.new t0.width t0.height) i j
  refine h.trans ?_
  by_cases hc : 0 < (collect_colors (t0 :: rest) i j).length
  · rw [if_pos ⟨List.mem_range.mpr hj, List.mem_range.mpr hi, hc⟩, if_pos hc]
  · rw [if_neg (fun hand => hc hand.2.2), if_neg hc, new_pix]

/-- Channel sums over a color list with `u8`-bounded channels. -/
theorem foldl_add_le_mul (colors : List (Nat × Nat × Nat))
    (f : Nat × Nat × Nat → Nat) (hb : ∀ c ∈ colors, f c ≤ 255) :
    ∀ init : Nat,
      colors.foldl (fun s c => s + f c) init ≤ init + 255 * colors.length := by
  induction colors with
  | nil => simp
  | cons c rest ih =>
    intro init
    simp only [List.foldl_cons, List.length_cons]
    have h1 := ih (fun d hd => hb d (List.mem_cons_of_mem _ hd)) (init + f c)
    have h2 : f c ≤ 255 := hb c (List.mem_cons_self _ _)
    calc rest.foldl (fun s c => s + f c) (init + f c)
        ≤ init + f c + 255 * rest.length := h1
      _ ≤ init + (255 * (rest.length + 1)) := by ring_nf; omega



/-- Truncating mean of `u8`-bounded values needs no `% 256`. -/
theorem mean_mod_256 (sum len : Nat) (hlen : 0 < len) (hs : sum ≤ 255 * len) :
    sum / len % 256 = sum / len := by
  apply Nat.mod_eq_of_lt
  have h1 : sum / len ≤ 255 * len / len := Nat.div_le_div_right hs
  rw [Nat.mul_div_cancel _ hlen] at h1
  omega

/-- C5: with `Average` blending, a pixel of the combined texture (inside the
first layer's bounds) is the per-channel truncating integer mean of the
colors with nonzero alpha across the layers, with alpha 255, when at least
one layer wrote it; a pixel transparent in every layer stays transparent.
In particular, layer colors `[(255,0,0,255), (0,0,0,0), (1,1,1,255)]`
combine to `(128, 0, 0, 255)`, and all-transparent layers stay clear. -/
theorem C5_combine_average
    (medianFn modeFn : List (Nat × Nat × Nat) → Nat × Nat × Nat)
    (t0 : RgbaImage) (rest : List RgbaImage) (img : RgbaImage) (i j : Nat)
    (hi : i < t0.width) (hj : j < t0.height)
    (him : combine_layers medianFn modeFn (t0 :: rest) Blending.Average =
      some img)
    (hvalid : ∀ c ∈ collect_colors (t0 :: rest) i j,
      c.1 ≤ 255 ∧ c.2.1 ≤ 255 ∧ c.2.2 ≤ 255) :
    (0 < (collect_colors (t0 :: rest) i j).length →
      img.pix i j =
        ⟨((collect_colors (t0 :: rest) i j).foldl (fun s c => s + c.1) 0) /
            (collect_colors (t0 :: rest) i j).length,
         ((collect_colors (t0 :: rest) i j).foldl (fun s c => s + c.2.1) 0) /
            (collect_colors (t0 :: rest) i j).length,
         ((collect_colors (t0 :: rest) i j).foldl (fun s c => s + c.2.2) 0) /
            (collect_colors (t0 :: rest) i j).length,
         255⟩) ∧
    ((collect_colors (t0 :: rest) i j).length = 0 →
      img.pix i j = Rgba.clear) ∧
    (∀ imgC, combine_layers medianFn modeFn [layerR, layerT, layerG]
        Blending.Average = some imgC → imgC.pix 0 0 = ⟨128, 0, 0, 255⟩) ∧
    (∀ imgT, combine_layers medianFn modeFn [layerT, layerT, layerT]
        Blending.Average = some imgT → imgT.pix 0 0 = Rgba.clear) := by
  have hpix := combine_layers_pix medianFn modeFn t0 rest Blending.Average
    img i j hi hj him
  refine ⟨?_, ?_, ?_, ?_⟩
  · intro hlen
    rw [hpix, if_pos hlen]
    show (⟨(average (collect_colors (t0 :: rest) i j)).1,
      (average (collect_colors (t0 :: rest) i j)).2.1,
      (average (collect_colors (t0 :: rest) i j)).2.2, 255⟩ : Rgba) = _
    unfold average
    have hr := foldl_add_le_mul (collect_colors (t0 :: rest) i j)
      (fun c => c.1) (fun c hc => (hvalid c hc).1) 0
    have hg := foldl_add_le_mul (collect_colors (t0 :: rest) i j)
      (fun c => c.2.1) (fun c hc => (hvalid c hc).2.1) 0
    have hb := foldl_add_le_mul (collect_colors (t0 :: rest) i j)
      (fun c => c.2.2) (fun c hc => (hvalid c hc).2.2) 0
    simp only [Nat.zero_add] at hr hg hb
    simp only [Rgba.mk.injEq]
    exact ⟨mean_mod_256 _ _ hlen hr, mean_mod_256 _ _ hlen hg,
      mean_mod_256 _ _ hlen hb, trivial⟩
  · intro hlen
    rw [hpix, if_neg (by omega)]
  · intro imgC hC
    have h := Option.some.inj hC
    rw [← h]
    rfl
  · intro imgT hT
    have h := Option.some.inj hT
    rw [← h]
    rfl

/-- Witness for C5 at the three concrete 1×1 layers
`[(255,0,0,255), (0,0,0,0), (1,1,1,255)]`. -/
theorem C5_combine_average_witness :
    ∃ img, combine_layers (fun _ => (0, 0, 0)) (fun _ => (0, 0, 0))
        [layerR, layerT, layerG] Blending.Average = some img ∧
      img.pix 0 0 = ⟨128, 0, 0, 255⟩ := by
  refine ⟨_, rfl, ?_⟩
  have h := C5_combine_average (fun _ => (0, 0, 0)) (fun _ => (0, 0, 0))
    layerR [layerT, layerG] _ 0 0 (by decide) (by decide) rfl (by decide)
  exact h.2.2.1 _ rfl

/-- C8: in the per-texel projection logic, with UV clipping enabled a texel
whose `(u, v)` lies outside the destination bounds is rejected (no write,
whatever the other gates say); with clipping disabled such a texel is not
rejected, and when the geometric gates and the visibility test pass, the
write lands at `(u % width, height - (v % height) - 1)`. -/
theorem C8_uv_clip_gate (clip uv_hit cam_hit is_front : Bool)
    (texture : RgbaImage) (u v : Nat) (color : Rgba) :
    (clip = true → texture.width ≤ u ∨ texture.height ≤ v →
      face_img_to_uv_texel clip uv_hit cam_hit is_front texture u v color =
        texture) ∧
    (clip = false → uv_hit = true → cam_hit = true → is_front = true →
      face_img_to_uv_texel clip uv_hit cam_hit is_front texture u v color =
        texture.put_pixel (u % texture.width)
          (texture.height - v % texture.height - 1) color) := by
  constructor
  · rintro rfl hout
    have hgate : ¬((u < texture.width ∧ v < texture.height) ∨
        (true : Bool) = false) := by
      rintro (⟨h1, h2⟩ | hff)
      · rcases hout with h | h <;> omega
      · exact Bool.noConfusion hff
    unfold face_img_to_uv_texel
    cases uv_hit
    · rfl
    · cases cam_hit
      · rfl
      · simp only [if_true, if_neg hgate]
  · rintro rfl rfl rfl rfl
    unfold face_img_to_uv_texel
    dsimp only
    rw [if_pos (show (u < texture.width ∧ v < texture.height) ∨
      (false : Bool) = false from Or.inr rfl)]
    rfl

/-- Witness for C8 on the 2×2 texture `tex3` at `u = 5, v = 0`: with
clipping the texel is rejected; without clipping it writes at
`(5 % 2, 2 - 0 % 2 - 1) = (1, 1)`. -/
theorem C8_uv_clip_gate_witness :
    face_img_to_uv_texel true true true true tex3 5 0 ⟨9, 9, 9, 255⟩ =
      tex3 ∧
    face_img_to_uv_texel false true true true tex3 5 0 ⟨9, 9, 9, 255⟩ =
      tex3.put_pixel (5 % tex3.width) (tex3.height - 0 % tex3.height - 1)
        ⟨9, 9, 9, 255⟩ :=
  ⟨(C8_uv_clip_gate true true true true tex3 5 0 ⟨9, 9, 9, 255⟩).1 rfl
      (Or.inl (by decide)),
   (C8_uv_clip_gate false true true true tex3 5 0 ⟨9, 9, 9, 255⟩).2 rfl
      rfl rfl rfl⟩

/-- C10: `combine_layers` reads `textures[0]` unconditionally, so the empty
layer list hits the out-of-bounds index (modelled as `none`); every
nonempty list produces a texture. -/
theorem C10_combine_layers_requires_nonempty
    (medianFn modeFn : List (Nat × Nat × Nat) → Nat × Nat × Nat)
    (blending : Blending) :
    combine_layers medianFn modeFn [] blending = none ∧
    ∀ (textures : List RgbaImage), textures ≠ [] →
      ∃ img, combine_layers medianFn modeFn textures blending = some img := by
  refine ⟨rfl, ?_⟩
  intro textures hne
  cases textures with
  | nil => exact absurd rfl hne
  | cons t0 rest => exact ⟨_, rfl⟩

/-- Witness for C10: concrete combiners, `Average`, and the one-layer list
`[layerT]`. -/
theorem C10_combine_layers_requires_nonempty_witness :
    combine_layers (fun _ => (0, 0, 0)) (fun _ => (0, 0, 0)) []
        Blending.Average = none ∧
    (([layerT] : List RgbaImage) ≠ [] ∧
     ∃ img, combine_layers (fun _ => (0, 0, 0)) (fun _ => (0, 0, 0)) [layerT]
        Blending.Average = some img) :=
  ⟨(C10_combine_layers_requires_nonempty (fun _ => (0, 0, 0))
      (fun _ => (0, 0, 0)) Blending.Average).1,
   by simp,
   (C10_combine_layers_requires_nonempty (fun _ => (0, 0, 0))
      (fun _ => (0, 0, 0)) Blending.Average).2 [layerT] (by simp)⟩

end Eyek
